import Mathlib

/-!
Verification of the faye-redis engine (`faye-redis.ts` / `Engine` class):
a shallow embedding of the engine's Redis-backed state and of its
operations (`createClient`, `clientExists`, `destroyClient`, `ping`,
`subscribe`, `unsubscribe`, `publish`, `emptyQueue`, `gc`, `_withLock`),
together with theorems checking the natural-language specification
against that embedding.

Conventions of the embedding:
* Redis state is one `RedisState` record: the `/clients` sorted set is an
  association list `List (String × Int)` (member, score); the per-client
  channel sets, per-channel client sets and per-client message queues are
  functions from keys to lists; the single `/locks/gc` key is an
  `Option Int`.
* Times are integers (milliseconds, as produced by `Date.getTime`); the
  externally supplied heartbeat `timeout` is a rational number of seconds
  (the source treats it as a JS float; rationals model the exact
  arithmetic `1000 * 1.6 * timeout`, `1000 * 2 * timeout`).  The JS
  `typeof timeout !== 'number'` guard is modelled by `JTimeout`, which
  distinguishes finite numbers, `NaN` (which *is* of number type) and
  non-number values.
* JSON payloads are the inductive `Json` (numbers are modelled as
  integers; floating-point payloads are outside the embedding's scope);
  `JSON.stringify` / `JSON.parse` are `stringifyV` / `parseJson`.
* Notifications (`this._server.trigger(...)` calls and the two Redis
  pub/sub publishes) are accumulated in `Event` lists.
* Asynchronous callbacks are sequentialised; a `Bool` result records
  whether an operation's completion callback was invoked, and an
  `execFails` flag injects a storage error where a claim talks about the
  error path.
-/

/-- JSON values, as produced by `JSON.parse` / consumed by
`JSON.stringify` in the source.  Strings are lists of characters; numbers
are integers (the engine never manipulates payload numbers, so the
integer restriction only narrows the quantifier of round-trip claims,
never the code it models). -/
inductive Json where
  | null
  | bool (b : Bool)
  | num (n : Int)
  | str (s : List Char)
  | arr (elems : List Json)
  | obj (fields : List (List Char × Json))

/-- Decimal digit character for a digit value `0..9`. -/
def digitChar : Nat → Char
  | 0 => '0'
  | 1 => '1'
  | 2 => '2'
  | 3 => '3'
  | 4 => '4'
  | 5 => '5'
  | 6 => '6'
  | 7 => '7'
  | 8 => '8'
  | _ => '9'

/-- Is `c` a decimal digit character? -/
def isDig (c : Char) : Bool :=
  decide (48 ≤ c.toNat) && decide (c.toNat ≤ 57)

/-- Numeric value of a decimal digit character. -/
def dval (c : Char) : Nat := c.toNat - 48

/-- Most-significant-first decimal digits of `n`, with explicit fuel
(the recursion `n ↦ n / 10` expressed structurally). -/
def natDigitsFuel : Nat → Nat → List Char
  | 0, _ => []
  | fuel + 1, n =>
    if n < 10 then [digitChar n]
    else natDigitsFuel fuel (n / 10) ++ [digitChar (n % 10)]

/-- Decimal digit string of a natural number. -/
def natDigits (n : Nat) : List Char := natDigitsFuel (n + 1) n

/-- Decimal representation of an integer, as `JSON.stringify` emits it. -/
def stringifyInt (n : Int) : List Char :=
  if n < 0 then '-' :: natDigits n.natAbs else natDigits n.toNat

/-- Hexadecimal digit character for a value `0..15` (lower case, as
`JSON.stringify` emits in `\u00XX` escapes). -/
def hexDigit : Nat → Char
  | 0 => '0'
  | 1 => '1'
  | 2 => '2'
  | 3 => '3'
  | 4 => '4'
  | 5 => '5'
  | 6 => '6'
  | 7 => '7'
  | 8 => '8'
  | 9 => '9'
  | 10 => 'a'
  | 11 => 'b'
  | 12 => 'c'
  | 13 => 'd'
  | 14 => 'e'
  | _ => 'f'

/-- Value of a hexadecimal digit character, `none` if not a hex digit. -/
def hexVal (c : Char) : Option Nat :=
  if c = '0' then some 0
  else if c = '1' then some 1
  else if c = '2' then some 2
  else if c = '3' then some 3
  else if c = '4' then some 4
  else if c = '5' then some 5
  else if c = '6' then some 6
  else if c = '7' then some 7
  else if c = '8' then some 8
  else if c = '9' then some 9
  else if c = 'a' then some 10
  else if c = 'b' then some 11
  else if c = 'c' then some 12
  else if c = 'd' then some 13
  else if c = 'e' then some 14
  else if c = 'f' then some 15
  else none

/-- `JSON.stringify` escaping of one string character: `"` and `\`
get a backslash escape, the common control characters get their short
escapes, the remaining control characters (code < 32) get `\u00XX`, and
every other character is emitted verbatim. -/
def escapeChar (c : Char) : List Char :=
  if c = '"' then ['\\', '"']
  else if c = '\\' then ['\\', '\\']
  else if c = '\n' then ['\\', 'n']
  else if c = '\r' then ['\\', 'r']
  else if c = '\t' then ['\\', 't']
  else if c = '\x08' then ['\\', 'b']
  else if c = '\x0c' then ['\\', 'f']
  else if c.toNat < 32 then
    ['\\', 'u', '0', '0', hexDigit (c.toNat / 16), hexDigit (c.toNat % 16)]
  else [c]

/-- `JSON.stringify` escaping of a whole string body. -/
def escapeStr : List Char → List Char
  | [] => []
  | c :: rest => escapeChar c ++ escapeStr rest

mutual

/-- `JSON.stringify` of a value (no whitespace, exactly as the JS
function emits for payloads built from the modelled constructors). -/
def stringifyV : Json → List Char
  | .num n => stringifyInt n
  | .bool b => if b then ['t', 'r', 'u', 'e'] else ['f', 'a', 'l', 's', 'e']
  | .null => ['n', 'u', 'l', 'l']
  | .str s => '"' :: escapeStr s ++ ['"']
  | .arr l => '[' :: stringifyElems l ++ [']']
  | .obj fs => '\x7b' :: stringifyFields fs ++ ['\x7d']

/-- Comma-separated serialization of array elements. -/
def stringifyElems : List Json → List Char
  | [] => []
  | [x] => stringifyV x
  | x :: y :: rest => stringifyV x ++ ',' :: stringifyElems (y :: rest)

/-- Comma-separated serialization of object fields. -/
def stringifyFields : List (List Char × Json) → List Char
  | [] => []
  | [(k, v)] => '"' :: escapeStr k ++ '"' :: ':' :: stringifyV v
  | (k, v) :: g :: rest =>
    ('"' :: escapeStr k ++ '"' :: ':' :: stringifyV v) ++ ',' :: stringifyFields (g :: rest)

end

/-- String-body parser (the part of `JSON.parse` after an opening quote):
consumes characters up to the closing quote, undoing the escapes
`escapeChar` produces.  Fuel bounds the recursion; one character of input
is consumed per step, so `input.length` fuel suffices. -/
def parseStrBody : Nat → List Char → Option (List Char × List Char)
  | 0, _ => none
  | _ + 1, [] => none
  | f + 1, c :: cs =>
    if c = '"' then some ([], cs)
    else if c = '\\' then
      match cs with
      | [] => none
      | e :: cs2 =>
        if e = '"' then (parseStrBody f cs2).map (fun p => ('"' :: p.1, p.2))
        else if e = '\\' then (parseStrBody f cs2).map (fun p => ('\\' :: p.1, p.2))
        else if e = 'n' then (parseStrBody f cs2).map (fun p => ('\n' :: p.1, p.2))
        else if e = 'r' then (parseStrBody f cs2).map (fun p => ('\r' :: p.1, p.2))
        else if e = 't' then (parseStrBody f cs2).map (fun p => ('\t' :: p.1, p.2))
        else if e = 'b' then (parseStrBody f cs2).map (fun p => ('\x08' :: p.1, p.2))
        else if e = 'f' then (parseStrBody f cs2).map (fun p => ('\x0c' :: p.1, p.2))
        else if e = 'u' then
          match cs2 with
          | h1 :: h2 :: h3 :: h4 :: cs3 =>
            match hexVal h1, hexVal h2, hexVal h3, hexVal h4 with
            | some a, some b, some c2, some d =>
              (parseStrBody f cs3).map
                (fun p => (Char.ofNat (((a * 16 + b) * 16 + c2) * 16 + d) :: p.1, p.2))
            | _, _, _, _ => none
          | _ => none
        else none
    else (parseStrBody f cs).map (fun p => (c :: p.1, p.2))

/-- Parse a maximal run of decimal digits into a natural number, failing
when no digit is present. -/
def dvAcc : List Char → Nat → Nat
  | [], a => a
  | c :: t, a => dvAcc t (a * 10 + dval c)

/-- Parse a nonempty digit token at the head of the input. -/
def parseNatTok (cs : List Char) : Option (Nat × List Char) :=
  let ds := cs.takeWhile isDig
  if ds.isEmpty then none else some (dvAcc ds 0, cs.dropWhile isDig)

/-- `true` when the input does not start with a decimal digit (so a
preceding number token cannot absorb it). -/
def headNotDigit : List Char → Bool
  | [] => true
  | c :: _ => !(isDig c)

/-- Does the input start with the given character? -/
def startsWith (c : Char) : List Char → Bool
  | [] => false
  | x :: _ => x == c

mutual

/-- Value parser of `JSON.parse`, specialised to the whitespace-free
output format of `JSON.stringify`.  Fuel bounds the mutual recursion. -/
def parseVal : Nat → List Char → Option (Json × List Char)
  | 0, _ => none
  | _ + 1, [] => none
  | f + 1, c :: r =>
    if isDig c then
      (parseNatTok (c :: r)).map (fun p => (.num (p.1 : Int), p.2))
    else if c = '-' then
      (parseNatTok r).map (fun p => (.num (-(p.1 : Int)), p.2))
    else if c = '"' then
      (parseStrBody (r.length + 1) r).map (fun p => (.str p.1, p.2))
    else if c = '[' then
      if startsWith ']' r then some (.arr [], r.tail)
      else (parseElems f r).map (fun p => (.arr p.1, p.2))
    else if c = '\x7b' then
      if startsWith '\x7d' r then some (.obj [], r.tail)
      else (parseFields f r).map (fun p => (.obj p.1, p.2))
    else if c = 'n' then
      match r with
      | 'u' :: 'l' :: 'l' :: r2 => some (.null, r2)
      | _ => none
    else if c = 't' then
      match r with
      | 'r' :: 'u' :: 'e' :: r2 => some (.bool true, r2)
      | _ => none
    else if c = 'f' then
      match r with
      | 'a' :: 'l' :: 's' :: 'e' :: r2 => some (.bool false, r2)
      | _ => none
    else none

/-- Parser for a nonempty array-element list followed by `]`. -/
def parseElems : Nat → List Char → Option (List Json × List Char)
  | 0, _ => none
  | f + 1, cs =>
    match parseVal f cs with
    | none => none
    | some (v, r1) =>
      match r1 with
      | ',' :: r2 =>
        match parseElems f r2 with
        | some (l, r3) => some (v :: l, r3)
        | none => none
      | ']' :: r2 => some ([v], r2)
      | _ => none

/-- Parser for a nonempty object-field list followed by the closing
brace. -/
def parseFields : Nat → List Char → Option (List (List Char × Json) × List Char)
  | 0, _ => none
  | f + 1, cs =>
    match cs with
    | '"' :: r =>
      match parseStrBody (r.length + 1) r with
      | none => none
      | some (k, r1) =>
        match r1 with
        | ':' :: r2 =>
          match parseVal f r2 with
          | none => none
          | some (v, r3) =>
            match r3 with
            | ',' :: r4 =>
              match parseFields f r4 with
              | some (l, r5) => some ((k, v) :: l, r5)
              | none => none
            | '\x7d' :: r4 => some ([(k, v)], r4)
            | _ => none
        | _ => none
    | _ => none

end

/-- `JSON.parse`: parse a complete value, requiring the whole input to be
consumed. -/
def parseJson (cs : List Char) : Option Json :=
  match parseVal (cs.length + 1) cs with
  | some (j, []) => some j
  | _ => none

mutual

/-- Fuel measure of a `Json` value: an upper bound on the parser fuel the
round-trip proof needs. -/
def jsize : Json → Nat
  | .null => 1
  | .bool _ => 1
  | .num _ => 1
  | .str _ => 1
  | .arr l => 1 + jsizeL l
  | .obj fs => 1 + jsizeF fs

/-- Fuel measure of an array-element list. -/
def jsizeL : List Json → Nat
  | [] => 0
  | x :: r => 1 + jsize x + jsizeL r

/-- Fuel measure of an object-field list. -/
def jsizeF : List (List Char × Json) → Nat
  | [] => 0
  | (_, v) :: r => 1 + jsize v + jsizeF r

end

/-- The externally supplied heartbeat `timeout` as the engine sees it:
a finite JS number (modelled exactly by a rational number of seconds),
`NaN` (which satisfies `typeof timeout === 'number'`), or a non-number
value (`undefined`, a string, ...). -/
inductive JTimeout where
  | num (q : ℚ)
  | nan
  | other
  deriving DecidableEq

/-- The JS guard `typeof timeout === 'number'` used by `ping` and `gc`:
true for finite numbers and for `NaN`. -/
def typeofIsNumber : JTimeout → Bool
  | .num _ => true
  | .nan => true
  | .other => false

/-- The spec's notion of a well-formed heartbeat number: a finite number
(`NaN` and non-number values are not well-formed). -/
def wellFormedNum : JTimeout → Bool
  | .num _ => true
  | _ => false

/-- Notifications: `this._server.trigger(...)` events and the two Redis
pub/sub publishes the engine performs. -/
inductive Event where
  | handshake (cid : String)
  | subscribeEv (cid ch : String)
  | unsubscribeEv (cid ch : String)
  | disconnect (cid : String)
  | closeMsg (cid : String)
  | messageNotif (cid : String)
  | publishEv
  deriving DecidableEq

/-- The engine's namespaced Redis keys, as one record:
`/clients` (sorted set of client ids scored by last-activity time),
`/clients/{id}/channels`, `/channels{channel}`, `/clients/{id}/messages`
and the single `/locks/gc` value. -/
structure RedisState where
  clients : List (String × Int)
  clientChannels : String → List String
  channelClients : String → List String
  messages : String → List (List Char)
  gcLock : Option Int

/-- `zScore`: score of a member of the `/clients` sorted set. -/
def zScoreL : List (String × Int) → String → Option Int
  | [], _ => none
  | (k, v) :: r, c => if k = c then some v else zScoreL r c

/-- `zAdd` without flags: update the member's score, or append the member
if absent. -/
def zAddUpd (l : List (String × Int)) (cid : String) (sc : Int) : List (String × Int) :=
  match l with
  | [] => [(cid, sc)]
  | (k, v) :: r => if k = cid then (k, sc) :: r else (k, v) :: zAddUpd r cid sc

/-- `zAdd ... NX`: add only if absent; returns the number of members
added (`1` or `0`) together with the new set. -/
def zAddNX (l : List (String × Int)) (cid : String) (sc : Int) :
    Nat × List (String × Int) :=
  if (zScoreL l cid).isSome then (0, l) else (1, l ++ [(cid, sc)])

/-- `zRem`: remove a member from the sorted set. -/
def zRemL (l : List (String × Int)) (cid : String) : List (String × Int) :=
  l.filter (fun p => !(p.1 == cid))

/-- `sAdd`: add to a set, returning how many members were added. -/
def sAddRes (l : List String) (x : String) : Nat × List String :=
  if x ∈ l then (0, l) else (1, l ++ [x])

/-- `sRem`: remove from a set, returning how many members were removed. -/
def sRemRes (l : List String) (x : String) : Nat × List String :=
  if x ∈ l then (1, l.erase x) else (0, l)

/-- The body of `clientExists` on the `/clients` set: JS computes
`cutoff = now - 1000 * 1.6 * timeout` and returns
`score ? parseInt(score, 10) > cutoff : false` — so an absent member and
a member whose score is the falsy number `0` both yield `false`, and a
`NaN`/invalid cutoff makes the `>` comparison false. -/
def existsScore (l : List (String × Int)) (now : Int) (t : JTimeout)
    (cid : String) : Bool :=
  match zScoreL l cid with
  | none => false
  | some sc =>
    if sc = 0 then false
    else
      match t with
      | .num q => decide ((now : ℚ) - 1600 * q < (sc : ℚ))
      | _ => false

/-- `clientExists(clientId, callback, context)`: the boolean passed to
the callback; `execFails` injects a storage error, on which the callback
receives `false`. -/
def clientExists (s : RedisState) (now : Int) (t : JTimeout) (cid : String)
    (execFails : Bool) : Bool :=
  if execFails then false else existsScore s.clients now t cid

/-- `ping(clientId)`: no-op unless `typeof timeout === 'number'`;
otherwise `zAdd` the current time as the client's score. -/
def pingJ (s : RedisState) (now : Int) (t : JTimeout) (cid : String) : RedisState :=
  if typeofIsNumber t = false then s
  else { s with clients := zAddUpd s.clients cid now }

/-- `createClient(callback, context)`: draw an id from the server's
generator, `zAdd ... NX` it with score `0`, retry on collision, then
`ping` and hand the id to the callback.  The unbounded retry loop of the
source is expressed with explicit fuel; `gen k` is the id the generator
returns on its `k`-th call. -/
def createClientFuel (gen : Nat → String) (now : Int) (t : JTimeout) :
    Nat → Nat → RedisState → Option (String × RedisState × List Event)
  | 0, _, _ => none
  | fuel + 1, k, s =>
    let cid := gen k
    let added := (zAddNX s.clients cid 0).1
    if added = 0 then createClientFuel gen now t fuel (k + 1) s
    else
      let s1 : RedisState := { s with clients := (zAddNX s.clients cid 0).2 }
      let s2 := pingJ s1 now t cid
      some (cid, s2, [Event.handshake cid])

/-- `subscribe(clientId, channel, callback, context)`: `sAdd` the channel
to the client's set, trigger `subscribe` only when that first `sAdd`
added something, then `sAdd` the client to the channel's set and invoke
the callback (the returned `Bool`). -/
def subscribeOp (s : RedisState) (cid ch : String) :
    RedisState × List Event × Bool :=
  let added := (sAddRes (s.clientChannels cid) ch).1
  let fwd := (sAddRes (s.clientChannels cid) ch).2
  let s1 : RedisState :=
    { s with clientChannels := fun c => if c = cid then fwd else s.clientChannels c }
  let evs := if added = 1 then [Event.subscribeEv cid ch] else []
  let rev := (sAddRes (s1.channelClients ch) cid).2
  let s2 : RedisState :=
    { s1 with channelClients := fun c => if c = ch then rev else s1.channelClients c }
  (s2, evs, true)

/-- `unsubscribe(clientId, channel, callback, context)`: symmetric
removal; triggers `unsubscribe` only when the removal from the client's
channel set removed something. -/
def unsubscribeOp (s : RedisState) (cid ch : String) :
    RedisState × List Event × Bool :=
  let removed := (sRemRes (s.clientChannels cid) ch).1
  let fwd := (sRemRes (s.clientChannels cid) ch).2
  let s1 : RedisState :=
    { s with clientChannels := fun c => if c = cid then fwd else s.clientChannels c }
  let evs := if removed = 1 then [Event.unsubscribeEv cid ch] else []
  let rev := (sRemRes (s1.channelClients ch) cid).2
  let s2 : RedisState :=
    { s1 with channelClients := fun c => if c = ch then rev else s1.channelClients c }
  (s2, evs, true)

/-- The per-channel body of `destroyClient`'s MULTI batch: for each
channel of the client, `sRem` the channel from the client's set and the
client from the channel's set, collecting the result of the *first*
(client-side) `sRem` of each pair — the `results[2 * i + 1]` values the
source inspects afterwards. -/
def destroyLoop (cid : String) : List String → RedisState → RedisState × List Nat
  | [], s => (s, [])
  | ch :: rest, s =>
    let r1 := (sRemRes (s.clientChannels cid) ch).1
    let fwd := (sRemRes (s.clientChannels cid) ch).2
    let s1 : RedisState :=
      { s with clientChannels := fun c => if c = cid then fwd else s.clientChannels c }
    let rev := (sRemRes (s1.channelClients ch) cid).2
    let s2 : RedisState :=
      { s1 with channelClients := fun c => if c = ch then rev else s1.channelClients c }
    let res := destroyLoop cid rest s2
    (res.1, r1 :: res.2)

/-- `destroyClient(clientId, callback, context)`: read the client's
channels; in one MULTI batch touch the client's score to `0`, remove
both sides of every subscription edge, delete the message queue, remove
the client from `/clients` and publish the close notification; after the
batch, trigger `unsubscribe` for each channel whose client-side `sRem`
(`results[2 * i + 1]`) returned `1`, then trigger `disconnect` and invoke
the callback.  On a storage error (`execFails`) nothing is triggered but
the callback is still invoked. -/
def destroyClient (s : RedisState) (cid : String) (execFails : Bool) :
    RedisState × List Event × Bool :=
  if execFails then (s, [], true)
  else
    let channels := s.clientChannels cid
    let s0 : RedisState := { s with clients := zAddUpd s.clients cid 0 }
    let s1 := (destroyLoop cid channels s0).1
    let results := (destroyLoop cid channels s0).2
    let s2 : RedisState :=
      { s1 with messages := fun c => if c = cid then [] else s1.messages c }
    let s3 : RedisState := { s2 with clients := zRemL s2.clients cid }
    let unsubs := (channels.zip results).filterMap
      (fun p => if p.2 = 1 then some (Event.unsubscribeEv cid p.1) else none)
    (s3, (Event.closeMsg cid :: unsubs) ++ [Event.disconnect cid], true)

/-- The per-client body of `publish`: `rPush` the serialized message onto
the client's queue, publish the fan-out notification carrying the client
id, re-check liveness with `clientExists`, and delete the queue when the
check fails. -/
def publishLoop (now : Int) (t : JTimeout) (jmsg : List Char) :
    List String → RedisState → RedisState × List Event
  | [], s => (s, [])
  | cid :: rest, s =>
    let s1 : RedisState :=
      { s with messages := fun c => if c = cid then s.messages c ++ [jmsg] else s.messages c }
    let ex := existsScore s1.clients now t cid
    let s2 : RedisState :=
      if ex then s1
      else { s1 with messages := fun c => if c = cid then [] else s1.messages c }
    let res := publishLoop now t jmsg rest s2
    (res.1, Event.messageNotif cid :: res.2)

/-- `publish(message, channels)`: serialize once, `sUnion` the channels'
client sets, run the per-client body for every client of the union, and
finally trigger exactly one `publish` event. -/
def publishOp (s : RedisState) (now : Int) (t : JTimeout) (msg : Json)
    (channels : List String) : RedisState × List Event :=
  let jmsg := stringifyV msg
  let cids := (channels.flatMap s.channelClients).dedup
  let res := publishLoop now t jmsg cids s
  (res.1, res.2 ++ [Event.publishEv])

/-- `JSON.parse` applied to every queue entry; a parse failure anywhere
makes the whole drain fail (the JS `map` throws and the promise
rejects). -/
def parseAll : List (List Char) → Option (List Json)
  | [] => some []
  | j :: rest =>
    match parseJson j, parseAll rest with
    | some m, some ms => some (m :: ms)
    | _, _ => none

/-- `emptyQueue(clientId)`: nothing happens unless this process holds the
client's connection; otherwise atomically read and delete the queue, and
when it was nonempty `JSON.parse` every entry and deliver the list (a
parse failure rejects the promise, so nothing is delivered). -/
def emptyQueueOp (s : RedisState) (cid : String) (hasConn : Bool) :
    RedisState × Option (List Json) :=
  if hasConn = false then (s, none)
  else
    let jsons := s.messages cid
    let s1 : RedisState :=
      { s with messages := fun c => if c = cid then [] else s.messages c }
    if jsons.isEmpty then (s1, none)
    else
      match parseAll jsons with
      | some msgs => (s1, some msgs)
      | none => (s1, none)

/-- `expiry = currentTime + this.LOCK_TIMEOUT * 1000 + 1` computed by
`_withLock` (`LOCK_TIMEOUT` is in seconds, default `120`). -/
def lockExpiry (now lockTimeoutS : Int) : Int := now + lockTimeoutS * 1000 + 1

/-- Outcome of one `_withLock` attempt. -/
inductive LockResult where
  | runs
  | abstains
  deriving DecidableEq

/-- The values another process may have stored under `/locks/gc` at the
three moments `_withLock` touches it: at the `SET ... NX`, at the `GET`,
and the value the `SET ... GET` hands back. -/
structure LockEnv where
  v0 : Option Int
  v1 : Option Int
  v2 : Option Int

/-- One `_withLock` attempt: `SET key expiry NX`; on success run.  On
failure `GET` the key: absent ⇒ abstain; a value still in the future
(`currentTime < value`) ⇒ abstain; otherwise `SET key expiry GET` and run
only if the value read back equals the value just observed.  The second
component is the value this attempt wrote to the key, if any. -/
def withLockAttempt (now lockTimeoutS : Int) (env : LockEnv) :
    LockResult × Option Int :=
  let expiry := lockExpiry now lockTimeoutS
  match env.v0 with
  | none => (.runs, some expiry)
  | some _ =>
    match env.v1 with
    | none => (.abstains, none)
    | some t =>
      if now < t then (.abstains, none)
      else if env.v2 = some t then (.runs, some expiry)
      else (.abstains, some expiry)

/-- `releaseLock`: the record is deleted only when the release happens
before the acquirer's expiry has passed. -/
def releaseDeletes (releaseTime expiry : Int) : Bool :=
  decide (releaseTime < expiry)

/-- The candidates of a GC sweep:
`zRangeByScore('/clients', 0, now - 1000 * 2 * timeout)` — every member
whose score lies in the inclusive range `[0, cutoff]`. -/
def gcCandidates (s : RedisState) (now : Int) (q : ℚ) : List String :=
  (s.clients.filter
    (fun p => decide (0 ≤ p.2) && decide ((p.2 : ℚ) ≤ (now : ℚ) - 2000 * q))).map Prod.fst

/-- Destroy every listed client in turn, counting completion-callback
invocations as the source's `completed` counter does. -/
def destroyAllLoop : List String → RedisState → RedisState × List Event × Nat
  | [], s => (s, [], 0)
  | c :: rest, s =>
    let r1 := destroyClient s c false
    let r2 := destroyAllLoop rest r1.1
    (r2.1, r1.2.1 ++ r2.2.1, (if r1.2.2 then 1 else 0) + r2.2.2)

/-- The sweep body `gc` runs once the lock is held: query the stale
candidates; with none, release at once; otherwise destroy each and
release only when the completion count reaches the candidate count.
Returns the final state, the completion count and whether `releaseLock`
was invoked. -/
def gcSweep (s : RedisState) (now : Int) (q : ℚ) :
    RedisState × Nat × Bool :=
  if (gcCandidates s now q).isEmpty then (s, 0, true)
  else
    ((destroyAllLoop (gcCandidates s now q) s).1,
      (destroyAllLoop (gcCandidates s now q) s).2.2,
      (destroyAllLoop (gcCandidates s now q) s).2.2 = (gcCandidates s now q).length)

/-- `gc()` end to end, sequentialised with no concurrent interference on
the lock key: guarded by `typeof timeout === 'number'`; `_withLock`
acquires (or, past expiry, steals) `/locks/gc`; with a finite timeout the
sweep runs and the release deletes the lock if its expiry has not passed;
with `timeout = NaN` the guard passes, the lock is taken, and the
`zRangeByScore` with a `NaN` bound rejects — leaving the lock held. -/
def gcJ (s : RedisState) (now lockTimeoutS : Int) (t : JTimeout) : RedisState :=
  if typeofIsNumber t = false then s
  else
    let expiry := lockExpiry now lockTimeoutS
    let acquired : Bool :=
      match s.gcLock with
      | none => true
      | some v => decide (v ≤ now)
    if acquired then
      let sL : RedisState := { s with gcLock := some expiry }
      match t with
      | .nan => sL
      | .other => s
      | .num q =>
        let res := gcSweep sL now q
        if res.2.2 && releaseDeletes now expiry then { res.1 with gcLock := none }
        else res.1
    else s

/-- The everywhere-empty channel/client set table. -/
def emptyTbl : String → List String := fun _ => []

/-- The everywhere-empty message-queue table. -/
def emptyMsgs : String → List (List Char) := fun _ => []

/-- A state with no clients, subscriptions, queues or lock. -/
def stateEmpty : RedisState := ⟨[], emptyTbl, emptyTbl, emptyMsgs, none⟩

/-- A state whose only client has the score `0` that `createClient` and
`destroyClient` write. -/
def stateScore0 : RedisState := ⟨[("c", 0)], emptyTbl, emptyTbl, emptyMsgs, none⟩

/-- A state in which client `c`'s forward index lists `/ch` but the
channel's reverse index does not list `c` (the transiently inconsistent
state a crash between the two `sAdd`s of `subscribe` leaves behind). -/
def stateSkew : RedisState :=
  ⟨[], fun c => if c = "c" then ["/ch"] else [], emptyTbl, emptyMsgs, none⟩

/-- A state already holding the client id `"dup"`. -/
def stateDup : RedisState := ⟨[("dup", 5)], emptyTbl, emptyTbl, emptyMsgs, none⟩

/-- An identifier generator that returns `"dup"` twice, then `"zz"`. -/
def genDup : Nat → String := fun k => if k < 2 then "dup" else "zz"

/-- A state with one live client `c` subscribed to channel `/ch` and an
empty queue. -/
def stateSub : RedisState :=
  ⟨[("c", 100)], fun c => if c = "c" then ["/ch"] else [],
    fun ch => if ch = "/ch" then ["c"] else [], emptyMsgs, none⟩

/-- A structured payload used to witness the round-trip claim. -/
def msgRT : Json :=
  .obj [(['a'], .num (-3)), (['b'], .arr [.str ['h', 'i'], .bool true, .null])]

theorem dval_digitChar (d : Nat) (h : d < 10) : dval (digitChar d) = d := by
  interval_cases d <;> rfl

theorem isDig_digitChar (d : Nat) (h : d < 10) : isDig (digitChar d) = true := by
  interval_cases d <;> rfl

theorem hexVal_hexDigit (d : Nat) (h : d < 16) : hexVal (hexDigit d) = some d := by
  interval_cases d <;> rfl

theorem natDigitsFuel_ne_nil (fuel n : Nat) : natDigitsFuel (fuel + 1) n ≠ [] := by
  unfold natDigitsFuel
  split
  · simp
  · simp

theorem natDigitsFuel_digits :
    ∀ fuel n c, c ∈ natDigitsFuel fuel n → isDig c = true := by
  intro fuel
  induction fuel with
  | zero => intro n c h; simp [natDigitsFuel] at h
  | succ f ih =>
    intro n c h
    unfold natDigitsFuel at h
    split at h
    · next hlt =>
      simp at h
      subst h
      exact isDig_digitChar n hlt
    · next hge =>
      rcases List.mem_append.1 h with h1 | h2
      · exact ih _ _ h1
      · simp at h2
        subst h2
        exact isDig_digitChar _ (Nat.mod_lt _ (by omega))

theorem dvAcc_append (l1 l2 : List Char) :
    ∀ a, dvAcc (l1 ++ l2) a = dvAcc l2 (dvAcc l1 a) := by
  induction l1 with
  | nil => intro a; rfl
  | cons c t ih => intro a; simp [dvAcc, ih]

theorem dvAcc_natDigitsFuel : ∀ fuel n, n < fuel → dvAcc (natDigitsFuel fuel n) 0 = n := by
  intro fuel
  induction fuel with
  | zero => intro n h; omega
  | succ f ih =>
    intro n h
    unfold natDigitsFuel
    split
    · next hlt => simp [dvAcc, dval_digitChar n hlt]
    · next hge =>
      rw [dvAcc_append]
      have hdiv : n / 10 < n := Nat.div_lt_self (by omega) (by omega)
      rw [ih (n / 10) (by omega)]
      simp [dvAcc, dval_digitChar (n % 10) (Nat.mod_lt _ (by omega))]
      omega

theorem natDigits_digits (n : Nat) : ∀ c ∈ natDigits n, isDig c = true :=
  fun c hc => natDigitsFuel_digits (n + 1) n c hc

theorem natDigits_ne_nil (n : Nat) : natDigits n ≠ [] := natDigitsFuel_ne_nil n n

theorem dvAcc_natDigits (n : Nat) : dvAcc (natDigits n) 0 = n :=
  dvAcc_natDigitsFuel (n + 1) n (Nat.lt_succ_self n)

theorem takeWhile_digits_append :
    ∀ l r : List Char, (∀ c ∈ l, isDig c = true) → headNotDigit r = true →
      (l ++ r).takeWhile isDig = l ∧ (l ++ r).dropWhile isDig = r := by
  intro l
  induction l with
  | nil =>
    intro r _ hr
    cases r with
    | nil => exact ⟨rfl, rfl⟩
    | cons c t =>
      simp [headNotDigit] at hr
      simp [List.takeWhile, List.dropWhile, hr]
  | cons c t ih =>
    intro r hl hr
    have hc : isDig c = true := hl c (List.mem_cons_self c t)
    have ht := ih r (fun x hx => hl x (List.mem_cons_of_mem c hx)) hr
    simp [List.takeWhile, List.dropWhile, hc, ht.1, ht.2]

theorem parseNatTok_digits (l r : List Char) (hl : ∀ c ∈ l, isDig c = true)
    (hne : l ≠ []) (hr : headNotDigit r = true) :
    parseNatTok (l ++ r) = some (dvAcc l 0, r) := by
  obtain ⟨h1, h2⟩ := takeWhile_digits_append l r hl hr
  unfold parseNatTok
  simp only [h1, h2, List.isEmpty_iff]
  simp [hne]

theorem hexVal_zero : hexVal '0' = some 0 := rfl

theorem escapeStr_length (s : List Char) : s.length ≤ (escapeStr s).length := by
  induction s with
  | nil => simp [escapeStr]
  | cons c t ih =>
    have hc : 1 ≤ (escapeChar c).length := by
      unfold escapeChar
      split_ifs <;> simp
    simp only [escapeStr, List.length_append, List.length_cons]
    omega

theorem parseStrBody_round :
    ∀ s : List Char, ∀ f r, s.length < f →
      parseStrBody f (escapeStr s ++ '"' :: r) = some (s, r) := by
  intro s
  induction s with
  | nil =>
    intro f r h
    obtain ⟨f', rfl⟩ : ∃ f', f = f' + 1 := ⟨f - 1, by omega⟩
    simp [escapeStr, parseStrBody]
  | cons c t ih =>
    intro f r h
    obtain ⟨f', rfl⟩ : ∃ f', f = f' + 1 := ⟨f - 1, by omega⟩
    have ht : t.length < f' := by simp at h; omega
    simp only [escapeStr, List.append_assoc]
    by_cases h1 : c = '"'
    · subst h1; simp [escapeChar, parseStrBody, ih f' r ht]
    · by_cases h2 : c = '\\'
      · subst h2; simp [escapeChar, parseStrBody, ih f' r ht]
      · by_cases h3 : c = '\n'
        · subst h3; simp [escapeChar, parseStrBody, ih f' r ht]
        · by_cases h4 : c = '\r'
          · subst h4; simp [escapeChar, parseStrBody, ih f' r ht]
          · by_cases h5 : c = '\t'
            · subst h5; simp [escapeChar, parseStrBody, ih f' r ht]
            · by_cases h6 : c = '\x08'
              · subst h6; simp [escapeChar, parseStrBody, ih f' r ht]
              · by_cases h7 : c = '\x0c'
                · subst h7; simp [escapeChar, parseStrBody, ih f' r ht]
                · by_cases h8 : c.toNat < 32
                  · have hhi : c.toNat / 16 < 16 := by omega
                    have hlo : c.toNat % 16 < 16 := Nat.mod_lt _ (by omega)
                    simp only [escapeChar, if_neg h1, if_neg h2, if_neg h3, if_neg h4,
                      if_neg h5, if_neg h6, if_neg h7, if_pos h8]
                    simp [parseStrBody, hexVal_zero, hexVal_hexDigit _ hhi,
                      hexVal_hexDigit _ hlo, ih f' r ht]
                    have hval : c.toNat / 16 * 16 + c.toNat % 16 = c.toNat := by omega
                    rw [hval, Char.ofNat_toNat]
                  · simp only [escapeChar, if_neg h1, if_neg h2, if_neg h3, if_neg h4,
                      if_neg h5, if_neg h6, if_neg h7, if_neg h8]
                    simp [parseStrBody, h1, h2, ih f' r ht]

theorem jsize_pos (j : Json) : 1 ≤ jsize j := by
  cases j <;> simp [jsize]

theorem isDig_ne (c : Char) (h : isDig c = true) :
    c ≠ ']' ∧ c ≠ ',' ∧ c ≠ '\x7d' := by
  refine ⟨?_, ?_, ?_⟩ <;> rintro rfl <;> exact absurd h (by decide)

theorem stringifyV_head (j : Json) :
    ∃ c t, stringifyV j = c :: t ∧ c ≠ ']' ∧ c ≠ ',' ∧ c ≠ '\x7d' := by
  cases j with
  | null => exact ⟨'n', _, rfl, by decide, by decide, by decide⟩
  | bool b =>
    cases b with
    | false => exact ⟨'f', _, rfl, by decide, by decide, by decide⟩
    | true => exact ⟨'t', _, rfl, by decide, by decide, by decide⟩
  | num n =>
    by_cases hneg : n < 0
    · refine ⟨'-', natDigits n.natAbs, ?_, by decide, by decide, by decide⟩
      simp [stringifyV, stringifyInt, hneg]
    · cases hnd : natDigits n.toNat with
      | nil => exact absurd hnd (natDigits_ne_nil _)
      | cons c t =>
        have hc : isDig c = true :=
          natDigits_digits n.toNat c (by rw [hnd]; exact List.mem_cons_self _ _)
        obtain ⟨h1, h2, h3⟩ := isDig_ne c hc
        refine ⟨c, t, ?_, h1, h2, h3⟩
        simp [stringifyV, stringifyInt, hneg, hnd]
  | str s => exact ⟨'"', _, rfl, by decide, by decide, by decide⟩
  | arr l => exact ⟨'[', _, rfl, by decide, by decide, by decide⟩
  | obj fs => exact ⟨'\x7b', _, rfl, by decide, by decide, by decide⟩

theorem stringifyElems_head (x : Json) (xs : List Json) :
    ∃ c t, stringifyElems (x :: xs) = c :: t ∧ c ≠ ']' ∧ c ≠ ',' ∧ c ≠ '\x7d' := by
  obtain ⟨c, t, hct, h1, h2, h3⟩ := stringifyV_head x
  cases xs with
  | nil => exact ⟨c, t, by simp [stringifyElems, hct], h1, h2, h3⟩
  | cons y r =>
    exact ⟨c, t ++ ',' :: stringifyElems (y :: r), by simp [stringifyElems, hct], h1, h2, h3⟩

theorem stringifyFields_head (k : List Char) (v : Json)
    (rest : List (List Char × Json)) :
    ∃ t, stringifyFields ((k, v) :: rest) = '"' :: t := by
  cases rest with
  | nil => exact ⟨escapeStr k ++ '"' :: ':' :: stringifyV v, by simp [stringifyFields]⟩
  | cons g gs =>
    exact ⟨escapeStr k ++ '"' :: ':' :: (stringifyV v ++ ',' :: stringifyFields (g :: gs)),
      by simp [stringifyFields]⟩

mutual

theorem jsize_le_len : ∀ j : Json, jsize j ≤ (stringifyV j).length
  | .null => by simp [jsize, stringifyV]
  | .bool b => by cases b <;> simp [jsize, stringifyV]
  | .num n => by
    simp only [jsize, stringifyV]
    unfold stringifyInt
    split
    · simp
    · have := natDigits_ne_nil n.toNat
      have : 0 < (natDigits n.toNat).length := List.length_pos.2 this
      omega
  | .str s => by simp [jsize, stringifyV]
  | .arr l => by
    cases l with
    | nil => simp [jsize, jsizeL, stringifyV, stringifyElems]
    | cons x xs =>
      have h := jsizeL_le_len (x :: xs) (by simp)
      simp only [jsize, stringifyV, List.length_cons, List.length_append]
      simp
      omega
  | .obj fs => by
    cases fs with
    | nil => simp [jsize, jsizeF, stringifyV, stringifyFields]
    | cons g gs =>
      have h := jsizeF_le_len (g :: gs) (by simp)
      simp only [jsize, stringifyV, List.length_cons, List.length_append]
      simp
      omega

theorem jsizeL_le_len : ∀ l : List Json, l ≠ [] → jsizeL l ≤ (stringifyElems l).length + 1
  | [], h => absurd rfl h
  | [x], _ => by
    have := jsize_le_len x
    simp only [jsizeL, stringifyElems]
    omega
  | x :: y :: r, _ => by
    have h1 := jsize_le_len x
    have h2 := jsizeL_le_len (y :: r) (by simp)
    simp only [jsizeL] at h2 ⊢
    simp only [stringifyElems, List.length_append, List.length_cons]
    omega

theorem jsizeF_le_len : ∀ fs : List (List Char × Json), fs ≠ [] →
    jsizeF fs ≤ (stringifyFields fs).length + 1
  | [], h => absurd rfl h
  | [(k, v)], _ => by
    have := jsize_le_len v
    simp only [jsizeF, stringifyFields, List.length_cons, List.length_append]
    omega
  | (k, v) :: g :: r, _ => by
    have h1 := jsize_le_len v
    have h2 := jsizeF_le_len (g :: r) (by simp)
    simp only [jsizeF] at h2 ⊢
    simp only [stringifyFields, List.length_append, List.length_cons]
    omega

end

theorem parse_stringify_fuel : ∀ f : Nat,
    (∀ (j : Json) (r : List Char), jsize j ≤ f → headNotDigit r = true →
      parseVal f (stringifyV j ++ r) = some (j, r)) ∧
    (∀ (l : List Json) (r : List Char), l ≠ [] → jsizeL l ≤ f →
      parseElems f (stringifyElems l ++ ']' :: r) = some (l, r)) ∧
    (∀ (fs : List (List Char × Json)) (r : List Char), fs ≠ [] → jsizeF fs ≤ f →
      parseFields f (stringifyFields fs ++ '\x7d' :: r) = some (fs, r)) := by
  intro f
  induction f using Nat.strong_induction_on with
  | _ f ih =>
    refine ⟨?_, ?_, ?_⟩
    · intro j r hf hr
      have hf1 : 1 ≤ f := le_trans (jsize_pos j) hf
      obtain ⟨f', rfl⟩ : ∃ f', f = f' + 1 := ⟨f - 1, by omega⟩
      cases j with
      | null => rfl
      | bool b => cases b <;> rfl
      | num n =>
        by_cases hneg : n < 0
        · have hsi : stringifyV (Json.num n) = '-' :: natDigits n.natAbs := by
            simp [stringifyV, stringifyInt, hneg]
          rw [hsi, List.cons_append]
          have hb : parseVal (f' + 1) ('-' :: (natDigits n.natAbs ++ r)) =
              (parseNatTok (natDigits n.natAbs ++ r)).map
                (fun p => (Json.num (-(p.1 : Int)), p.2)) := rfl
          rw [hb, parseNatTok_digits _ r (natDigits_digits _) (natDigits_ne_nil _) hr]
          simp only [Option.map_some', dvAcc_natDigits]
          have habs : -(n.natAbs : Int) = n := by omega
          rw [habs]
        · have hsi : stringifyV (Json.num n) = natDigits n.toNat := by
            simp [stringifyV, stringifyInt, hneg]
          rw [hsi]
          cases hnd : natDigits n.toNat with
          | nil => exact absurd hnd (natDigits_ne_nil _)
          | cons c t =>
            have hc : isDig c = true :=
              natDigits_digits n.toNat c (by rw [hnd]; exact List.mem_cons_self _ _)
            rw [List.cons_append]
            simp only [parseVal]
            rw [if_pos hc, ← List.cons_append, ← hnd,
              parseNatTok_digits _ r (natDigits_digits _) (natDigits_ne_nil _) hr]
            simp only [Option.map_some', dvAcc_natDigits]
            have habs : (n.toNat : Int) = n := by omega
            rw [habs]
      | str s =>
        have hsh : stringifyV (Json.str s) ++ r = '"' :: (escapeStr s ++ '"' :: r) := by
          simp [stringifyV]
        rw [hsh]
        have hb : parseVal (f' + 1) ('"' :: (escapeStr s ++ '"' :: r)) =
            (parseStrBody ((escapeStr s ++ '"' :: r).length + 1)
              (escapeStr s ++ '"' :: r)).map (fun p => (Json.str p.1, p.2)) := rfl
        rw [hb, parseStrBody_round s _ r (by
          have := escapeStr_length s
          simp only [List.length_append, List.length_cons]
          omega)]
        rfl
      | arr l =>
        cases l with
        | nil =>
          have hsh : stringifyV (Json.arr []) ++ r = '[' :: ']' :: r := by
            simp [stringifyV, stringifyElems]
          rw [hsh]
          rfl
        | cons x xs =>
          have hsz : jsizeL (x :: xs) ≤ f' := by
            have hj : jsize (Json.arr (x :: xs)) = 1 + jsizeL (x :: xs) := rfl
            omega
          have hE := (ih f' (Nat.lt_succ_self f')).2.1 (x :: xs) r (by simp) hsz
          obtain ⟨c, t, hct, hc1, _, _⟩ := stringifyElems_head x xs
          have hsh : stringifyV (Json.arr (x :: xs)) ++ r
              = '[' :: (stringifyElems (x :: xs) ++ ']' :: r) := by
            simp [stringifyV]
          rw [hsh]
          have hb : parseVal (f' + 1) ('[' :: (stringifyElems (x :: xs) ++ ']' :: r)) =
              (if startsWith ']' (stringifyElems (x :: xs) ++ ']' :: r) then
                some (Json.arr [], (stringifyElems (x :: xs) ++ ']' :: r).tail)
              else (parseElems f' (stringifyElems (x :: xs) ++ ']' :: r)).map
                (fun p => (Json.arr p.1, p.2))) := rfl
          rw [hb]
          have hsw : startsWith ']' (stringifyElems (x :: xs) ++ ']' :: r) = false := by
            rw [hct, List.cons_append]
            simp only [startsWith, beq_eq_false_iff_ne, ne_eq]
            exact hc1
          rw [hsw, if_neg Bool.false_ne_true, hE]
          rfl
      | obj fs =>
        cases fs with
        | nil =>
          have hsh : stringifyV (Json.obj []) ++ r = '\x7b' :: '\x7d' :: r := by
            simp [stringifyV, stringifyFields]
          rw [hsh]
          rfl
        | cons g gs =>
          obtain ⟨k, v⟩ := g
          have hsz : jsizeF ((k, v) :: gs) ≤ f' := by
            have hj : jsize (Json.obj ((k, v) :: gs)) = 1 + jsizeF ((k, v) :: gs) := rfl
            omega
          have hF := (ih f' (Nat.lt_succ_self f')).2.2 ((k, v) :: gs) r (by simp) hsz
          obtain ⟨t, hct⟩ := stringifyFields_head k v gs
          have hsh : stringifyV (Json.obj ((k, v) :: gs)) ++ r
              = '\x7b' :: (stringifyFields ((k, v) :: gs) ++ '\x7d' :: r) := by
            simp [stringifyV]
          rw [hsh]
          have hb : parseVal (f' + 1)
              ('\x7b' :: (stringifyFields ((k, v) :: gs) ++ '\x7d' :: r)) =
              (if startsWith '\x7d' (stringifyFields ((k, v) :: gs) ++ '\x7d' :: r) then
                some (Json.obj [], (stringifyFields ((k, v) :: gs) ++ '\x7d' :: r).tail)
              else (parseFields f' (stringifyFields ((k, v) :: gs) ++ '\x7d' :: r)).map
                (fun p => (Json.obj p.1, p.2))) := rfl
          rw [hb]
          have hsw : startsWith '\x7d'
              (stringifyFields ((k, v) :: gs) ++ '\x7d' :: r) = false := by
            rw [hct, List.cons_append]
            rfl
          rw [hsw, if_neg Bool.false_ne_true, hF]
          rfl
    · intro l r hne hsz
      have h1 : 1 ≤ jsizeL l := by
        cases l with
        | nil => exact absurd rfl hne
        | cons x xs => simp only [jsizeL]; omega
      obtain ⟨f', rfl⟩ : ∃ f', f = f' + 1 := ⟨f - 1, by omega⟩
      cases l with
      | nil => exact absurd rfl hne
      | cons x xs =>
        cases xs with
        | nil =>
          have hszx : jsize x ≤ f' := by simp only [jsizeL] at hsz; omega
          have hx := (ih f' (Nat.lt_succ_self f')).1 x (']' :: r) hszx rfl
          have hsh : stringifyElems [x] ++ ']' :: r = stringifyV x ++ ']' :: r := by
            simp [stringifyElems]
          rw [hsh]
          simp only [parseElems, hx]
        | cons y ys =>
          have hpx := jsize_pos x
          have hszx : jsize x ≤ f' := by simp only [jsizeL] at hsz; omega
          have hszr : jsizeL (y :: ys) ≤ f' := by
            simp only [jsizeL] at hsz ⊢
            omega
          have hx := (ih f' (Nat.lt_succ_self f')).1 x
            (',' :: (stringifyElems (y :: ys) ++ ']' :: r)) hszx rfl
          have hrest := (ih f' (Nat.lt_succ_self f')).2.1 (y :: ys) r (by simp) hszr
          have hsh : stringifyElems (x :: y :: ys) ++ ']' :: r
              = stringifyV x ++ ',' :: (stringifyElems (y :: ys) ++ ']' :: r) := by
            simp [stringifyElems]
          rw [hsh]
          simp only [parseElems, hx, hrest]
    · intro fs r hne hsz
      have h1 : 1 ≤ jsizeF fs := by
        cases fs with
        | nil => exact absurd rfl hne
        | cons g gs => simp only [jsizeF]; omega
      obtain ⟨f', rfl⟩ : ∃ f', f = f' + 1 := ⟨f - 1, by omega⟩
      cases fs with
      | nil => exact absurd rfl hne
      | cons g gs =>
        obtain ⟨k, v⟩ := g
        cases gs with
        | nil =>
          have hszv : jsize v ≤ f' := by simp only [jsizeF] at hsz; omega
          have hv := (ih f' (Nat.lt_succ_self f')).1 v ('\x7d' :: r) hszv rfl
          have hsh : stringifyFields [(k, v)] ++ '\x7d' :: r
              = '"' :: (escapeStr k ++ '"' :: ':' :: (stringifyV v ++ '\x7d' :: r)) := by
            simp [stringifyFields]
          rw [hsh]
          simp only [parseFields]
          rw [parseStrBody_round k _ _ (by
            have := escapeStr_length k
            simp only [List.length_append, List.length_cons]
            omega)]
          simp only [hv]
        | cons g2 gs2 =>
          have hpv := jsize_pos v
          have hszv : jsize v ≤ f' := by simp only [jsizeF] at hsz; omega
          have hszr : jsizeF (g2 :: gs2) ≤ f' := by
            obtain ⟨k2, v2⟩ := g2
            simp only [jsizeF] at hsz ⊢
            omega
          have hv := (ih f' (Nat.lt_succ_self f')).1 v
            (',' :: (stringifyFields (g2 :: gs2) ++ '\x7d' :: r)) hszv rfl
          have hrest := (ih f' (Nat.lt_succ_self f')).2.2 (g2 :: gs2) r (by simp) hszr
          have hsh : stringifyFields ((k, v) :: g2 :: gs2) ++ '\x7d' :: r
              = '"' :: (escapeStr k ++ '"' :: ':' ::
                  (stringifyV v ++ ',' :: (stringifyFields (g2 :: gs2) ++ '\x7d' :: r))) := by
            simp [stringifyFields]
          rw [hsh]
          simp only [parseFields]
          rw [parseStrBody_round k _ _ (by
            have := escapeStr_length k
            simp only [List.length_append, List.length_cons]
            omega)]
          simp only [hv, hrest]

theorem parseJson_stringifyV (j : Json) : parseJson (stringifyV j) = some j := by
  have h := (parse_stringify_fuel ((stringifyV j).length + 1)).1 j []
    (by have := jsize_le_len j; omega) rfl
  rw [List.append_nil] at h
  unfold parseJson
  rw [h]

theorem zScoreL_zAddUpd_self (l : List (String × Int)) (c : String) (sc : Int) :
    zScoreL (zAddUpd l c sc) c = some sc := by
  induction l with
  | nil => simp [zAddUpd, zScoreL]
  | cons p r ih =>
    obtain ⟨k, v⟩ := p
    by_cases hk : k = c
    · subst hk; simp [zAddUpd, zScoreL]
    · simp [zAddUpd, zScoreL, hk, ih]

theorem zScoreL_zAddUpd_other (l : List (String × Int)) (c c2 : String) (sc : Int)
    (h : c2 ≠ c) : zScoreL (zAddUpd l c sc) c2 = zScoreL l c2 := by
  induction l with
  | nil => simp [zAddUpd, zScoreL, Ne.symm h]
  | cons p r ih =>
    obtain ⟨k, v⟩ := p
    by_cases hk : k = c
    · subst hk
      simp [zAddUpd, zScoreL, Ne.symm h]
    · simp [zAddUpd, zScoreL, hk, ih]

theorem zScoreL_zRemL_self (l : List (String × Int)) (c : String) :
    zScoreL (zRemL l c) c = none := by
  induction l with
  | nil => simp [zRemL, zScoreL]
  | cons p r ih =>
    obtain ⟨k, v⟩ := p
    by_cases hk : k = c
    · subst hk; simpa [zRemL, zScoreL] using ih
    · simpa [zRemL, zScoreL, hk] using ih

theorem zScoreL_zRemL_other (l : List (String × Int)) (c c2 : String)
    (h : c2 ≠ c) : zScoreL (zRemL l c) c2 = zScoreL l c2 := by
  induction l with
  | nil => simp [zRemL, zScoreL]
  | cons p r ih =>
    obtain ⟨k, v⟩ := p
    by_cases hk : k = c
    · subst hk
      have hkc : ¬ k = c2 := Ne.symm h
      simpa [zRemL, zScoreL, hkc] using ih
    · by_cases hk2 : k = c2
      · subst hk2; simp [zRemL, zScoreL, hk]
      · simpa [zRemL, zScoreL, hk, hk2] using ih

theorem zScoreL_mem (l : List (String × Int)) (c : String) (sc : Int)
    (h : zScoreL l c = some sc) : (c, sc) ∈ l := by
  induction l with
  | nil => simp [zScoreL] at h
  | cons p r ih =>
    obtain ⟨k, v⟩ := p
    by_cases hk : k = c
    · subst hk
      simp [zScoreL] at h
      simp [h]
    · simp [zScoreL, hk] at h
      exact List.mem_cons_of_mem _ (ih h)

theorem mem_zScoreL (l : List (String × Int)) (c : String) (sc : Int)
    (hnd : (l.map Prod.fst).Nodup) (h : (c, sc) ∈ l) : zScoreL l c = some sc := by
  induction l with
  | nil => simp at h
  | cons p r ih =>
    obtain ⟨k, v⟩ := p
    simp only [List.map_cons, List.nodup_cons] at hnd
    rcases List.mem_cons.1 h with h1 | h2
    · have h1' : c = k ∧ sc = v := by
        have := Prod.mk.injEq c sc k v ▸ h1
        simpa using this
      obtain ⟨rfl, rfl⟩ := h1'
      simp [zScoreL]
    · have hcr : c ∈ r.map Prod.fst := List.mem_map.2 ⟨(c, sc), h2, rfl⟩
      have hk : k ≠ c := fun he => hnd.1 (he ▸ hcr)
      simp [zScoreL, hk, ih hnd.2 h2]

theorem destroyLoop_clients (cid : String) :
    ∀ (l : List String) (s : RedisState), (destroyLoop cid l s).1.clients = s.clients := by
  intro l
  induction l with
  | nil => intro s; rfl
  | cons ch rest ih => intro s; simp only [destroyLoop, ih]

theorem destroyLoop_messages (cid : String) :
    ∀ (l : List String) (s : RedisState), (destroyLoop cid l s).1.messages = s.messages := by
  intro l
  induction l with
  | nil => intro s; rfl
  | cons ch rest ih => intro s; simp only [destroyLoop, ih]

theorem destroyLoop_gcLock (cid : String) :
    ∀ (l : List String) (s : RedisState), (destroyLoop cid l s).1.gcLock = s.gcLock := by
  intro l
  induction l with
  | nil => intro s; rfl
  | cons ch rest ih => intro s; simp only [destroyLoop, ih]

theorem destroyLoop_clientChannels_other (cid c2 : String) (h : c2 ≠ cid) :
    ∀ (l : List String) (s : RedisState),
      (destroyLoop cid l s).1.clientChannels c2 = s.clientChannels c2 := by
  intro l
  induction l with
  | nil => intro s; rfl
  | cons ch rest ih =>
    intro s
    simp only [destroyLoop, ih]
    simp [h]

theorem destroyLoop_results (cid : String) :
    ∀ (l : List String) (s : RedisState), s.clientChannels cid = l → l.Nodup →
      (destroyLoop cid l s).2 = l.map (fun _ => 1) ∧
      (destroyLoop cid l s).1.clientChannels cid = [] := by
  intro l
  induction l with
  | nil => intro s hs _; exact ⟨rfl, hs⟩
  | cons ch rest ih =>
    intro s hs hnd
    simp only [List.nodup_cons] at hnd
    have hrem : sRemRes (s.clientChannels cid) ch = (1, rest) := by
      rw [hs]
      simp [sRemRes, List.erase_cons_head]
    simp only [destroyLoop, hrem, List.map_cons]
    constructor
    · exact congrArg (List.cons 1) (ih _ (by simp) hnd.2).1
    · exact (ih _ (by simp) hnd.2).2

theorem zip_const1_filterMap (cid : String) : ∀ l : List String,
    ((l.zip (List.replicate l.length 1)).filterMap
      (fun p => if p.2 = 1 then some (Event.unsubscribeEv cid p.1) else none))
    = l.map (Event.unsubscribeEv cid) := by
  intro l
  induction l with
  | nil => rfl
  | cons a t ih => simp [List.replicate_succ, ih]

theorem destroyClient_cb (s : RedisState) (cid : String) (e : Bool) :
    (destroyClient s cid e).2.2 = true := by
  cases e <;> rfl

theorem destroyClient_events (s : RedisState) (cid : String)
    (hnd : (s.clientChannels cid).Nodup) :
    (destroyClient s cid false).2.1 =
      (Event.closeMsg cid :: (s.clientChannels cid).map (Event.unsubscribeEv cid))
        ++ [Event.disconnect cid] := by
  have hres := destroyLoop_results cid (s.clientChannels cid)
    ({ s with clients := zAddUpd s.clients cid 0 }) rfl hnd
  simp [destroyClient, hres.1, zip_const1_filterMap]

theorem destroyClient_clients_other (s : RedisState) (cid c2 : String) (h : c2 ≠ cid) :
    zScoreL (destroyClient s cid false).1.clients c2 = zScoreL s.clients c2 := by
  simp [destroyClient, destroyLoop_clients, zScoreL_zRemL_other _ _ _ h,
    zScoreL_zAddUpd_other _ _ _ _ h]

theorem destroyClient_clients_self (s : RedisState) (cid : String) :
    zScoreL (destroyClient s cid false).1.clients cid = none := by
  simp [destroyClient, destroyLoop_clients, zScoreL_zRemL_self]

theorem destroyClient_clientChannels_other (s : RedisState) (cid c2 : String)
    (h : c2 ≠ cid) :
    (destroyClient s cid false).1.clientChannels c2 = s.clientChannels c2 := by
  simp [destroyClient, destroyLoop_clientChannels_other cid c2 h]

theorem destroyAllLoop_count : ∀ (l : List String) (s : RedisState),
    (destroyAllLoop l s).2.2 = l.length := by
  intro l
  induction l with
  | nil => intro s; rfl
  | cons c rest ih =>
    intro s
    simp [destroyAllLoop, destroyClient_cb, ih]
    omega

theorem destroyAllLoop_preserve (c2 : String) :
    ∀ (l : List String) (s : RedisState), c2 ∉ l →
      zScoreL (destroyAllLoop l s).1.clients c2 = zScoreL s.clients c2 ∧
      (destroyAllLoop l s).1.clientChannels c2 = s.clientChannels c2 := by
  intro l
  induction l with
  | nil => intro s _; exact ⟨rfl, rfl⟩
  | cons c rest ih =>
    intro s hmem
    have hne : c2 ≠ c := fun he => hmem (he ▸ List.mem_cons_self c rest)
    have hrest : c2 ∉ rest := fun hr => hmem (List.mem_cons_of_mem c hr)
    have hstep := ih (destroyClient s c false).1 hrest
    simp only [destroyAllLoop]
    exact ⟨hstep.1.trans (destroyClient_clients_other s c c2 hne),
      hstep.2.trans (destroyClient_clientChannels_other s c c2 hne)⟩

theorem mem_gcCandidates (s : RedisState) (now : Int) (q : ℚ) (cid : String) :
    cid ∈ gcCandidates s now q ↔
      ∃ sc, (cid, sc) ∈ s.clients ∧ 0 ≤ sc ∧ (sc : ℚ) ≤ (now : ℚ) - 2000 * q := by
  unfold gcCandidates
  simp only [List.mem_map, List.mem_filter, Bool.and_eq_true, decide_eq_true_eq]
  constructor
  · rintro ⟨⟨k, v⟩, ⟨hmem, h0, hc⟩, heq⟩
    exact ⟨v, heq ▸ hmem, h0, hc⟩
  · rintro ⟨sc, hmem, h0, hc⟩
    exact ⟨(cid, sc), ⟨hmem, h0, hc⟩, rfl⟩

theorem publishLoop_clients (now : Int) (t : JTimeout) (jm : List Char) :
    ∀ (l : List String) (s : RedisState),
      (publishLoop now t jm l s).1.clients = s.clients := by
  intro l
  induction l with
  | nil => intro s; rfl
  | cons c rest ih =>
    intro s
    simp only [publishLoop, ih]
    split <;> rfl

theorem publishLoop_events (now : Int) (t : JTimeout) (jm : List Char) :
    ∀ (l : List String) (s : RedisState),
      (publishLoop now t jm l s).2 = l.map Event.messageNotif := by
  intro l
  induction l with
  | nil => intro s; rfl
  | cons c rest ih =>
    intro s
    simp only [publishLoop, ih, List.map_cons]

theorem publishLoop_messages_not_mem (now : Int) (t : JTimeout) (jm : List Char)
    (c2 : String) :
    ∀ (l : List String) (s : RedisState), c2 ∉ l →
      (publishLoop now t jm l s).1.messages c2 = s.messages c2 := by
  intro l
  induction l with
  | nil => intro s _; rfl
  | cons c rest ih =>
    intro s hmem
    have hne : c2 ≠ c := fun he => hmem (he ▸ List.mem_cons_self c rest)
    have hrest : c2 ∉ rest := fun hr => hmem (List.mem_cons_of_mem c hr)
    simp only [publishLoop, ih _ hrest]
    split <;> simp [hne]

theorem publishLoop_messages_mem (now : Int) (t : JTimeout) (jm : List Char) :
    ∀ (l : List String) (s : RedisState) (c2 : String), l.Nodup → c2 ∈ l →
      (publishLoop now t jm l s).1.messages c2 =
        if existsScore s.clients now t c2 then s.messages c2 ++ [jm] else [] := by
  intro l
  induction l with
  | nil => intro s c2 _ h; simp at h
  | cons c rest ih =>
    intro s c2 hnd hmem
    simp only [List.nodup_cons] at hnd
    rcases List.mem_cons.1 hmem with rfl | hmem2
    · simp only [publishLoop]
      rw [publishLoop_messages_not_mem now t jm c2 rest _ hnd.1]
      by_cases hex : existsScore s.clients now t c2 = true
      · simp [hex]
      · simp only [Bool.not_eq_true] at hex
        simp [hex]
    · have hne : c2 ≠ c := fun he => hnd.1 (he ▸ hmem2)
      simp only [publishLoop]
      rw [ih _ c2 hnd.2 hmem2]
      by_cases hex : existsScore s.clients now t c = true
      · simp [hex, hne]
      · simp only [Bool.not_eq_true] at hex
        simp [hex, hne]

/-- C1: the GC lock protocol follows the spec's three-role state machine:
an attempt computes `expiry = now + LOCK_TIMEOUT*1000 + 1` and runs iff
the create-if-absent succeeded (key absent) or the steal path read a
past-due value and read the same value back from the atomic set; an
absent or still-future value observed after a failed create makes it
abstain; the steal path writes the new expiry; release deletes the
record only while the acquirer's expiry has not yet passed. -/
theorem claim_C1_withLock_protocol (now lockTimeoutS releaseTime : Int)
    (env : LockEnv) :
    lockExpiry now lockTimeoutS = now + lockTimeoutS * 1000 + 1 ∧
    ((withLockAttempt now lockTimeoutS env).1 = LockResult.runs ↔
      (env.v0 = none ∨ ∃ t, env.v1 = some t ∧ t ≤ now ∧ env.v2 = some t)) ∧
    (env.v0 ≠ none → env.v1 = none →
      (withLockAttempt now lockTimeoutS env).1 = LockResult.abstains) ∧
    (env.v0 ≠ none → ∀ t, env.v1 = some t → now < t →
      (withLockAttempt now lockTimeoutS env).1 = LockResult.abstains) ∧
    (env.v0 ≠ none → ∀ t, env.v1 = some t → t ≤ now →
      (withLockAttempt now lockTimeoutS env).2 = some (lockExpiry now lockTimeoutS)) ∧
    (releaseDeletes releaseTime (lockExpiry now lockTimeoutS) = true ↔
      releaseTime < now + lockTimeoutS * 1000 + 1) := by
  obtain ⟨v0, v1, v2⟩ := env
  refine ⟨rfl, ?_, ?_, ?_, ?_, ?_⟩
  · cases v0 with
    | none => simp [withLockAttempt]
    | some w =>
      cases v1 with
      | none => simp [withLockAttempt]
      | some tv =>
        simp only [withLockAttempt]
        by_cases hlt : now < tv
        · rw [if_pos hlt]
          simp
          intro t ht
          omega
        · rw [if_neg hlt]
          by_cases hv2 : v2 = some tv
          · rw [if_pos hv2]
            simp [hv2]
            omega
          · rw [if_neg hv2]
            constructor
            · intro hcon
              exact LockResult.noConfusion hcon
            · rintro (hcon | ⟨t2, ht2, hle2, hv⟩)
              · exact absurd hcon (by simp)
              · obtain rfl := Option.some.inj ht2
                exact absurd hv hv2
  · intro h0 h1
    have h1' : v1 = none := h1
    cases v0 with
    | none => exact absurd rfl h0
    | some w => simp [withLockAttempt, h1']
  · intro h0 t h1 hlt
    have h1' : v1 = some t := h1
    cases v0 with
    | none => exact absurd rfl h0
    | some w => simp [withLockAttempt, h1', hlt]
  · intro h0 t h1 hle
    have h1' : v1 = some t := h1
    cases v0 with
    | none => exact absurd rfl h0
    | some w =>
      simp only [withLockAttempt, h1']
      rw [if_neg (by omega : ¬ now < t)]
      split <;> rfl
  · simp [releaseDeletes, lockExpiry]

/-- C10: a client whose stored score in the session set is exactly `0`
(the state `createClient` leaves before its first `ping` completes, and
the score `destroyClient` touches inside its batch) is reported
non-existent by the existence check, whatever the timeout is: the falsy
score `0` is indistinguishable from an absent member. -/
theorem claim_C10_zero_score (s : RedisState) (now : Int) (t : JTimeout)
    (cid : String) (h : zScoreL s.clients cid = some 0) :
    clientExists s now t cid false = false := by
  simp [clientExists, existsScore, h]

/-- C10 witness: in the state where `c` was just created (score `0`),
the existence check returns `false` for a perfectly normal timeout. -/
theorem claim_C10_witness :
    zScoreL stateScore0.clients "c" = some 0 ∧
    clientExists stateScore0 5 (JTimeout.num 30) "c" false = false :=
  ⟨rfl, claim_C10_zero_score stateScore0 5 (JTimeout.num 30) "c" rfl⟩

/-- C4 counterexample: with `now = 1000` and `timeout = 10`, the cutoff
`now - 1600·timeout` is negative, so a present member with score `0` is
strictly more recent than the cutoff — yet `clientExists` returns
`false` (the score `0` is falsy), refuting "true iff present with a
score strictly more recent than the cutoff". -/
theorem claim_C4_counterexample :
    zScoreL stateScore0.clients "c" = some 0 ∧
    ((1000 : ℚ) - 1600 * 10 < ((0 : Int) : ℚ)) ∧
    clientExists stateScore0 1000 (JTimeout.num 10) "c" false = false := by
  refine ⟨rfl, by norm_num, rfl⟩

/-- C4 (amended): the existence check returns `true` iff no storage
error occurred and the client is present with a *nonzero* score strictly
more recent than `now - 1.6·timeout`; on a storage error it returns
`false` to the callback. -/
theorem claim_C4_exists_spec (s : RedisState) (now : Int) (q : ℚ) (cid : String)
    (e : Bool) :
    clientExists s now (JTimeout.num q) cid e = true ↔
      (e = false ∧ ∃ sc, zScoreL s.clients cid = some sc ∧ sc ≠ 0 ∧
        (now : ℚ) - 1600 * q < (sc : ℚ)) := by
  cases e with
  | true => simp [clientExists]
  | false =>
    simp only [clientExists, Bool.false_eq_true, if_false]
    cases h : zScoreL s.clients cid with
    | none => simp [existsScore, h]
    | some sc =>
      by_cases h0 : sc = 0
      · subst h0
        simp [existsScore, h]
      · simp [existsScore, h, h0]

/-- C5 counterexample: `NaN` is not a well-formed number, yet it passes
the JS `typeof timeout === 'number'` guard: `ping` with a `NaN` timeout
does update the client's score, and `gc` with a `NaN` timeout does not
abstain — it acquires the GC lock (and the sweep's range query then
rejects, leaving the lock held). -/
theorem claim_C5_counterexample :
    wellFormedNum JTimeout.nan = false ∧
    (pingJ stateEmpty 5 JTimeout.nan "c").clients = [("c", 5)] ∧
    (gcJ stateEmpty 5 120 JTimeout.nan).gcLock = some 120006 :=
  ⟨rfl, rfl, rfl⟩

/-- C5 (amended): the fail-open guard is the JS `typeof` check, not
well-formedness: when the supplied timeout is not of number type, `ping`
performs no update at all and `gc` abstains without reading or mutating
any state; a `NaN` timeout, being of number type, passes the guard (see
the counterexample). -/
theorem claim_C5_type_guard (s : RedisState) (now lockTimeoutS : Int)
    (t : JTimeout) (cid : String) (h : typeofIsNumber t = false) :
    pingJ s now t cid = s ∧ gcJ s now lockTimeoutS t = s := by
  constructor
  · simp [pingJ, h]
  · simp [gcJ, h]

/-- C5 witness: a non-number timeout makes `ping` and `gc` no-ops. -/
theorem claim_C5_witness :
    typeofIsNumber JTimeout.other = false ∧
    pingJ stateEmpty 5 JTimeout.other "c" = stateEmpty ∧
    gcJ stateEmpty 5 120 JTimeout.other = stateEmpty :=
  ⟨rfl, (claim_C5_type_guard stateEmpty 5 120 JTimeout.other "c" rfl).1,
    (claim_C5_type_guard stateEmpty 5 120 JTimeout.other "c" rfl).2⟩

/-- C7: notifications fire only on state transitions: subscribing the
same pair twice emits exactly one `subscribe` notification (the second
call still succeeds and invokes its callback), and unsubscribing a pair
that was never subscribed succeeds with no notification. -/
theorem claim_C7_transitions (s : RedisState) (cid ch : String)
    (h : ch ∉ s.clientChannels cid) :
    (((subscribeOp s cid ch).2.1 ++
        (subscribeOp (subscribeOp s cid ch).1 cid ch).2.1).count
          (Event.subscribeEv cid ch) = 1) ∧
    (subscribeOp (subscribeOp s cid ch).1 cid ch).2.2 = true ∧
    (unsubscribeOp s cid ch).2.1 = [] ∧
    (unsubscribeOp s cid ch).2.2 = true := by
  refine ⟨?_, rfl, ?_, rfl⟩
  · simp [subscribeOp, sAddRes, h]
  · simp [unsubscribeOp, sRemRes, h]

/-- C7 witness: the double-subscribe / stray-unsubscribe facts at a
concrete fresh state. -/
theorem claim_C7_witness :
    (((subscribeOp stateEmpty "c" "/ch").2.1 ++
        (subscribeOp (subscribeOp stateEmpty "c" "/ch").1 "c" "/ch").2.1).count
          (Event.subscribeEv "c" "/ch") = 1) ∧
    (subscribeOp (subscribeOp stateEmpty "c" "/ch").1 "c" "/ch").2.2 = true ∧
    (unsubscribeOp stateEmpty "c" "/ch").2.1 = [] ∧
    (unsubscribeOp stateEmpty "c" "/ch").2.2 = true :=
  claim_C7_transitions stateEmpty "c" "/ch" (List.not_mem_nil _)

/-- C8: `createClient` adds the candidate id with an atomic
create-if-absent and retries with the next generated id on collision, so
whenever it completes, the identifier handed to the callback was not
already present in the session set. -/
theorem claim_C8_create_fresh (gen : Nat → String) (now : Int) (t : JTimeout) :
    ∀ (fuel k : Nat) (s : RedisState) (cid : String) (s2 : RedisState)
      (evs : List Event),
      createClientFuel gen now t fuel k s = some (cid, s2, evs) →
      zScoreL s.clients cid = none := by
  intro fuel
  induction fuel with
  | zero => intro k s cid s2 evs h; simp [createClientFuel] at h
  | succ f ih =>
    intro k s cid s2 evs h
    simp only [createClientFuel] at h
    split at h
    · exact ih (k + 1) s cid s2 evs h
    · next hadd =>
      simp only [Option.some.injEq, Prod.mk.injEq] at h
      obtain ⟨rfl, -, -⟩ := h
      cases hz : zScoreL s.clients (gen k) with
      | none => rfl
      | some v =>
        exfalso
        exact hadd (by simp [zAddNX, hz])

/-- C8 witness: with a generator that returns `"dup"` twice and then
`"zz"`, and `"dup"` already taken, creation retries past the collision
and returns `"zz"`, an identifier that was not already present. -/
theorem claim_C8_witness :
    createClientFuel genDup 7 (JTimeout.num 30) 4 0 stateDup =
      some ("zz", ⟨[("dup", 5), ("zz", 7)], emptyTbl, emptyTbl, emptyMsgs, none⟩,
        [Event.handshake "zz"]) ∧
    zScoreL stateDup.clients "zz" = none ∧ "zz" ≠ "dup" :=
  ⟨rfl,
    claim_C8_create_fresh genDup 7 (JTimeout.num 30) 4 0 stateDup "zz"
      ⟨[("dup", 5), ("zz", 7)], emptyTbl, emptyTbl, emptyMsgs, none⟩
      [Event.handshake "zz"] rfl,
    by decide⟩

theorem count_publishEv_map (l : List String) :
    (l.map Event.messageNotif).count Event.publishEv = 0 := by
  induction l with
  | nil => rfl
  | cons c t ih => simp [List.count_cons, ih]

/-- C3 counterexample: in a state where client `c`'s forward index lists
`/ch` but `/ch`'s reverse index does not contain `c`, `destroyClient`
emits the `unsubscribe` notification although removing `c` from the
channel's reverse index changed nothing — the source keys the
notification to `results[2*i+1]`, the *client-side* (forward) removal,
not the reverse index. -/
theorem claim_C3_counterexample :
    Event.unsubscribeEv "c" "/ch" ∈ (destroyClient stateSkew "c" false).2.1 ∧
    "c" ∉ stateSkew.channelClients "/ch" := by
  constructor
  · decide
  · decide

/-- C3 (amended): after a committed destroy batch, `unsubscribe` fires
exactly for the channels of the client's forward index (those whose
forward-index removal changed state); the `disconnect` notification
always fires at the end of the committed path, and the completion
callback is always invoked — also when the storage operation errors, in
which case nothing is emitted. -/
theorem claim_C3_destroy_events (s : RedisState) (cid : String)
    (hnd : (s.clientChannels cid).Nodup) :
    (∀ ch, Event.unsubscribeEv cid ch ∈ (destroyClient s cid false).2.1 ↔
      ch ∈ s.clientChannels cid) ∧
    Event.disconnect cid ∈ (destroyClient s cid false).2.1 ∧
    (destroyClient s cid false).2.2 = true ∧
    (destroyClient s cid true).2.1 = [] ∧
    (destroyClient s cid true).2.2 = true := by
  refine ⟨?_, ?_, rfl, rfl, rfl⟩
  · intro ch
    rw [destroyClient_events s cid hnd]
    simp
  · rw [destroyClient_events s cid hnd]
    simp

/-- C3 witness: the amended destroy-notification facts at a concrete
consistent state. -/
theorem claim_C3_witness :
    (∀ ch, Event.unsubscribeEv "c" ch ∈ (destroyClient stateSub "c" false).2.1 ↔
      ch ∈ stateSub.clientChannels "c") ∧
    Event.disconnect "c" ∈ (destroyClient stateSub "c" false).2.1 ∧
    (destroyClient stateSub "c" false).2.2 = true ∧
    (destroyClient stateSub "c" true).2.1 = [] ∧
    (destroyClient stateSub "c" true).2.2 = true :=
  claim_C3_destroy_events stateSub "c" (by decide)

theorem destroyAllLoop_destroyed : ∀ (l : List String) (s : RedisState) (cid : String),
    l.Nodup → cid ∈ l → zScoreL (destroyAllLoop l s).1.clients cid = none := by
  intro l
  induction l with
  | nil => intro s cid _ h; simp at h
  | cons c rest ih =>
    intro s cid hnd hmem
    simp only [List.nodup_cons] at hnd
    rcases List.mem_cons.1 hmem with rfl | hmem2
    · simp only [destroyAllLoop]
      rw [(destroyAllLoop_preserve cid rest _ hnd.1).1]
      exact destroyClient_clients_self s cid
    · simp only [destroyAllLoop]
      exact ih _ cid hnd.2 hmem2

theorem gcCandidates_nodup (s : RedisState) (now : Int) (q : ℚ)
    (hnd : (s.clients.map Prod.fst).Nodup) : (gcCandidates s now q).Nodup := by
  unfold gcCandidates
  exact List.Nodup.sublist ((List.filter_sublist _).map Prod.fst) hnd

/-- C2 counterexample: with `now = 2000` and `timeout = 1` the cutoff
`now − 2000·timeout` is `0`, and a client whose score is exactly `0` is
selected by the sweep's range query (inclusive bound) although `0` is
not strictly older than the cutoff — refuting "selects exactly the
sessions whose score is older than `now − 2×timeout`". -/
theorem claim_C2_counterexample :
    gcCandidates stateScore0 2000 1 = ["c"] ∧
    zScoreL stateScore0.clients "c" = some 0 ∧
    ¬ (((0 : Int) : ℚ) < (2000 : ℚ) - 2000 * 1) := by
  refine ⟨?_, rfl, by norm_num⟩
  simp [gcCandidates, stateScore0]

/-- C2 (amended): a sweep's candidates are exactly the sessions whose
score lies in the inclusive range `[0, now − 2000·timeout]`; with no
candidate the lock is released immediately; otherwise every candidate is
destroyed and the lock is released exactly when the completion count
equals the candidate count (which the sequential model always reaches);
any session strictly more recent than the cutoff keeps its score and its
channel set untouched. -/
theorem claim_C2_gc_sweep (s : RedisState) (now : Int) (q : ℚ)
    (hnd : (s.clients.map Prod.fst).Nodup) :
    (∀ cid, cid ∈ gcCandidates s now q ↔
      ∃ sc, zScoreL s.clients cid = some sc ∧ 0 ≤ sc ∧
        (sc : ℚ) ≤ (now : ℚ) - 2000 * q) ∧
    (gcSweep s now q).2.2 = true ∧
    (gcSweep s now q).2.1 = (gcCandidates s now q).length ∧
    (∀ cid sc, zScoreL s.clients cid = some sc →
      (now : ℚ) - 2000 * q < (sc : ℚ) →
      zScoreL (gcSweep s now q).1.clients cid = some sc ∧
      (gcSweep s now q).1.clientChannels cid = s.clientChannels cid) ∧
    (∀ cid, cid ∈ gcCandidates s now q →
      zScoreL (gcSweep s now q).1.clients cid = none) := by
  have hmemiff : ∀ cid, cid ∈ gcCandidates s now q ↔
      ∃ sc, zScoreL s.clients cid = some sc ∧ 0 ≤ sc ∧
        (sc : ℚ) ≤ (now : ℚ) - 2000 * q := by
    intro cid
    rw [mem_gcCandidates]
    constructor
    · rintro ⟨sc, hmem, h0, hc⟩
      exact ⟨sc, mem_zScoreL _ _ _ hnd hmem, h0, hc⟩
    · rintro ⟨sc, hz, h0, hc⟩
      exact ⟨sc, zScoreL_mem _ _ _ hz, h0, hc⟩
  refine ⟨hmemiff, ?_, ?_, ?_, ?_⟩
  · unfold gcSweep
    split
    · rfl
    · simp [destroyAllLoop_count]
  · unfold gcSweep
    split
    · next hemp =>
      rw [List.isEmpty_iff] at hemp
      simp [hemp]
    · simp [destroyAllLoop_count]
  · intro cid sc hz hrec
    have hnm : cid ∉ gcCandidates s now q := by
      intro hmem
      obtain ⟨sc2, hz2, h02, hc2⟩ := (hmemiff cid).1 hmem
      rw [hz] at hz2
      obtain rfl := Option.some.inj hz2
      exact absurd hc2 (not_le.mpr hrec)
    unfold gcSweep
    split
    · exact ⟨hz, rfl⟩
    · exact ⟨((destroyAllLoop_preserve cid _ s hnm).1).trans hz,
        (destroyAllLoop_preserve cid _ s hnm).2⟩
  · intro cid hmem
    unfold gcSweep
    split
    · next hemp =>
      rw [List.isEmpty_iff] at hemp
      rw [hemp] at hmem
      simp at hmem
    · exact destroyAllLoop_destroyed _ s cid (gcCandidates_nodup s now q hnd) hmem

/-- C2 witness: at a concrete state whose only client is fresh, the
sweep leaves the client untouched and still releases the lock. -/
theorem claim_C2_witness :
    zScoreL (gcSweep stateSub 2000 1).1.clients "c" = some 100 ∧
    (gcSweep stateSub 2000 1).1.clientChannels "c" = stateSub.clientChannels "c" ∧
    (gcSweep stateSub 2000 1).2.2 = true := by
  have h := claim_C2_gc_sweep stateSub 2000 1 (by decide)
  exact ⟨(h.2.2.2.1 "c" 100 rfl (by norm_num)).1,
    (h.2.2.2.1 "c" 100 rfl (by norm_num)).2, h.2.1⟩

/-- C6: `publish` processes exactly the deduplicated union of the
channels' reverse indices, so a client subscribed via several matching
channels is enqueued once; for every processed client the serialized
message is appended to its queue and a fan-out notification published,
after which the queue is deleted iff the liveness re-check fails; and
exactly one `publish` event fires per call, also with zero
subscribers. -/
theorem claim_C6_publish (s : RedisState) (now : Int) (t : JTimeout) (msg : Json)
    (channels : List String) :
    ((channels.flatMap s.channelClients).dedup).Nodup ∧
    (∀ cid, cid ∈ (channels.flatMap s.channelClients).dedup ↔
      ∃ ch ∈ channels, cid ∈ s.channelClients ch) ∧
    (∀ cid, cid ∈ (channels.flatMap s.channelClients).dedup →
      Event.messageNotif cid ∈ (publishOp s now t msg channels).2 ∧
      (publishOp s now t msg channels).1.messages cid =
        (if existsScore s.clients now t cid then s.messages cid ++ [stringifyV msg]
         else [])) ∧
    ((publishOp s now t msg channels).2.count Event.publishEv = 1) := by
  refine ⟨List.nodup_dedup _, ?_, ?_, ?_⟩
  · intro cid
    simp [List.mem_dedup, List.mem_flatMap]
  · intro cid hmem
    constructor
    · show Event.messageNotif cid ∈ (publishOp s now t msg channels).2
      simp only [publishOp, publishLoop_events]
      exact List.mem_append_left _ (List.mem_map.2 ⟨cid, hmem, rfl⟩)
    · simp only [publishOp]
      exact publishLoop_messages_mem now t _ _ s cid (List.nodup_dedup _) hmem
  · simp [publishOp, publishLoop_events, List.count_append, count_publishEv_map]

/-- C9: round-trip — publishing a payload to a channel with a live
subscribed client whose queue is empty, then draining that client's
queue with the local connection present, delivers a list holding exactly
the original payload: serialization on enqueue followed by
deserialization on drain is the identity. -/
theorem claim_C9_roundtrip (s : RedisState) (now : Int) (t : JTimeout) (msg : Json)
    (cid ch : String)
    (hsub : cid ∈ s.channelClients ch)
    (hq : s.messages cid = [])
    (hlive : existsScore s.clients now t cid = true) :
    (emptyQueueOp (publishOp s now t msg [ch]).1 cid true).2 = some [msg] := by
  have hmem : cid ∈ (([ch].flatMap s.channelClients)).dedup := by
    simp [List.mem_dedup, hsub]
  have hmsg : (publishOp s now t msg [ch]).1.messages cid = [stringifyV msg] := by
    simp only [publishOp]
    rw [publishLoop_messages_mem now t _ _ s cid (List.nodup_dedup _) hmem]
    simp [hlive, hq]
  simp [emptyQueueOp, hmsg, parseAll, parseJson_stringifyV]

/-- C9 witness: a concrete structured payload survives the
publish-then-drain round trip unchanged. -/
theorem claim_C9_witness :
    (emptyQueueOp (publishOp stateSub 100 (JTimeout.num 1) msgRT ["/ch"]).1
      "c" true).2 = some [msgRT] := by
  apply claim_C9_roundtrip
  · decide
  · rfl
  · simp [existsScore, zScoreL, stateSub]
